import Mathlib

/-!
Shallow embedding of the FINRA short-volume screener pipeline
(`app.py`: `download_finra_date`, `load_data`, `get_market_caps`).

Machine reals produced by polars true division are modelled by `FloatVal`
(finite rationals plus the IEEE specials that polars produces on a zero
denominator); nullable columns are `Option`-valued; dates are proleptic
Gregorian ordinals (as Python's `date.toordinal`, with Monday = weekday 0
at ordinal 1).
-/

namespace DarkPool

/-- Value of a polars Float64 entry: a finite rational, or one of the IEEE
special values that polars produces when a true division has a zero
denominator. -/
inductive FloatVal where
  | num (q : ℚ)
  | inf
  | neginf
  | nan
deriving DecidableEq, Repr

/-- Round a rational to `k` decimal digits, as polars `.round(k)` does on a
finite float. -/
def roundDec (k : ℕ) (q : ℚ) : ℚ :=
  ((round (q * (10 : ℚ) ^ k) : ℤ) : ℚ) / (10 : ℚ) ^ k

/-- Polars true division (`/` between numeric columns): IEEE semantics, so a
zero denominator yields NaN for a zero numerator and a signed infinity
otherwise. -/
def fdiv (a b : ℚ) : FloatVal :=
  if b = 0 then
    if a = 0 then .nan else if 0 < a then .inf else .neginf
  else .num (a / b)

/-- Polars `.round(k)` lifted to `FloatVal`: the IEEE specials are fixed
points of rounding. -/
def fround (k : ℕ) : FloatVal → FloatVal
  | .num q => .num (roundDec k q)
  | v => v

/-- Multiplication by the positive constant 100 (used for `DP_Index_%`),
with IEEE behaviour on the specials. -/
def fscale100 : FloatVal → FloatVal
  | .num q => .num (q * 100)
  | .inf => .inf
  | .neginf => .neginf
  | .nan => .nan

/-- One row of a downloaded FINRA daily file, before the fetcher attaches the
`Date` column. -/
structure PreRow where
  symbol : String
  shortVolume : Int
  shortExemptVolume : Int
  totalVolume : Int
deriving DecidableEq, Repr

/-- One row of a daily table after `download_finra_date` attaches the `Date`
column (the probed date, not anything parsed from the payload). -/
structure Raw where
  symbol : String
  date : Int
  shortVolume : Int
  shortExemptVolume : Int
  totalVolume : Int
deriving DecidableEq, Repr

/-- The `with_columns(pl.lit(date).alias "Date")` step of
`download_finra_date`. -/
def attachDate (p : PreRow) (d : Int) : Raw :=
  ⟨p.symbol, d, p.shortVolume, p.shortExemptVolume, p.totalVolume⟩

/-- A row after the per-row derived columns of `load_data` (volume split,
`BS_Ratio`, `DP_Ratio`, `DP_Index_%`). -/
structure DRow where
  symbol : String
  date : Int
  shortVolume : Int
  shortExemptVolume : Int
  totalVolume : Int
  buyVolume : Int
  sellVolume : Int
  bsRatio : Option ℚ
  dpRatio : Option FloatVal
  dpIndexPct : Option FloatVal
deriving DecidableEq, Repr

/-- A fully enriched row: the derived columns plus the rolling baseline and
relative volume. -/
structure ERow extends DRow where
  avg10dVolume : ℚ
  relativeVolume : FloatVal
deriving DecidableEq, Repr

/-- The two `with_columns` blocks of `load_data` lines 60-70: `BuyVolume`
first, then `SellVolume`, guarded `BS_Ratio`, unguarded `DP_Ratio` and
`DP_Index_%`. -/
def deriveRow (r : Raw) : DRow :=
  let buy : Int := r.shortVolume + r.shortExemptVolume
  { symbol := r.symbol
    date := r.date
    shortVolume := r.shortVolume
    shortExemptVolume := r.shortExemptVolume
    totalVolume := r.totalVolume
    buyVolume := buy
    sellVolume := r.totalVolume - (r.shortVolume + r.shortExemptVolume)
    bsRatio :=
      if 0 < r.shortVolume then
        some (roundDec 3 ((buy : ℚ) / (r.shortVolume : ℚ)))
      else none
    dpRatio := some (fround 4 (fdiv (buy : ℚ) (r.totalVolume : ℚ)))
    dpIndexPct := some (fround 1 (fscale100 (fdiv (buy : ℚ) (r.totalVolume : ℚ)))) }

/-- Modelled from the spec: the rolling baseline accumulator. The source line
`pl.col("TotalVolume").Rolling_mean(window_size=10, min_periods=1)` names a
method polars does not have (the method is `rolling_mean`), so the intended
observation-count window of the spec is modelled here: each output is the
mean of the current value and up to the `w - 1` previous values, `prev`
holding the already-seen values most recent first. -/
def rollingMeanAux (w : ℕ) (prev : List ℚ) : List ℚ → List ℚ
  | [] => []
  | x :: rest =>
    let win := (x :: prev).take w
    (win.sum / (win.length : ℚ)) :: rollingMeanAux w (x :: prev) rest

/-- Modelled from the spec: windowed mean of window size `w`, minimum period
1, over one symbol's chronologically ordered observations. -/
def rollingMean (w : ℕ) (xs : List ℚ) : List ℚ :=
  rollingMeanAux w [] xs

/-- Sort key of `df_all.sort(["Symbol", "Date"])`. -/
def rowLE (a b : DRow) : Bool :=
  a.symbol < b.symbol || (a.symbol = b.symbol && a.date ≤ b.date)

/-- Insert into a `rowLE`-sorted list. -/
def insertSorted (r : DRow) : List DRow → List DRow
  | [] => [r]
  | x :: xs => if rowLE r x then r :: x :: xs else x :: insertSorted r xs

/-- The `df_all.sort(["Symbol", "Date"])` step (insertion sort; any
`(Symbol, Date)`-sort refines the polars sort, whose tie order is
unspecified). -/
def sortRows : List DRow → List DRow
  | [] => []
  | x :: xs => insertSorted x (sortRows xs)

/-- Split a list into maximal runs of equal `Symbol`; on a
`(Symbol, Date)`-sorted list these runs are exactly the `.over("Symbol")`
partitions. -/
def splitRuns : List DRow → List (List DRow)
  | [] => []
  | x :: xs =>
    match splitRuns xs with
    | [] => [[x]]
    | g :: gs =>
      match g with
      | [] => [x] :: g :: gs
      | y :: _ => if x.symbol = y.symbol then (x :: g) :: gs else [x] :: g :: gs

/-- Attach the rolling baseline and `Relative_Volume` to one symbol's run of
rows. -/
def withGroup (g : List DRow) : List ERow :=
  List.zipWith
    (fun d m =>
      { toDRow := d
        avg10dVolume := m
        relativeVolume := fround 2 (fdiv (d.totalVolume : ℚ) m) })
    g (rollingMean 10 (g.map fun d => (d.totalVolume : ℚ)))

/-- Lines 72-81 of `load_data`: sort by `(Symbol, Date)`, rolling mean over
each symbol partition, `Relative_Volume`. -/
def addRolling (ds : List DRow) : List ERow :=
  ((splitRuns (sortRows ds)).map withGroup).flatten

/-- The noise-filter predicate of `load_data` lines 83-86. -/
def noiseKeep (e : ERow) : Bool :=
  200000 ≤ e.totalVolume || 100000 ≤ e.buyVolume

/-- The whole enrichment of the combined table: derived columns, rolling
columns, then the noise filter. -/
def enrich (rows : List Raw) : List ERow :=
  (addRolling (rows.map deriveRow)).filter noiseKeep

/-- Python `date.weekday() >= 5` on a proleptic Gregorian ordinal (ordinal 1
is a Monday). -/
def isWeekend (d : Int) : Bool :=
  decide (5 ≤ (d - 1) % 7)

/-- The calendar dates `load_data` actually probes: `today - i` for
`i ∈ range maxCheck`, weekends skipped by the `continue`. -/
def probeDates (today : Int) (maxCheck : ℕ) : List Int :=
  ((List.range maxCheck).map fun i : ℕ => today - (i : Int)).filter fun d => !isWeekend d

/-- The probe budget of `load_data`: the constant `max_check = 60`,
whatever `lookback_days` is. -/
def max_check (_lookback : ℕ) : ℕ := 60

/-- The `download_finra_date` boundary: `provider` abstracts the HTTP fetch
and parse (`none` models any non-success status, transport failure or parse
failure), and a successful payload gets the probed date attached. -/
def download (provider : Int → Option (List PreRow)) (d : Int) : Option (List Raw) :=
  (provider d).map fun l => l.map fun p => attachDate p d

/-- The probe loop of `load_data` lines 42-52: walk the candidate dates,
skip unavailable and empty days, count populated days, break once
`days_found >= lookback_days`. -/
def assembleAux (fetch : Int → Option (List Raw)) (lookback : ℕ) :
    List Int → ℕ → List (List Raw)
  | [], _ => []
  | d :: ds, found =>
    match fetch d with
    | none => assembleAux fetch lookback ds found
    | some rows =>
      if rows.isEmpty then assembleAux fetch lookback ds found
      else if lookback ≤ found + 1 then [rows]
      else rows :: assembleAux fetch lookback ds (found + 1)

/-- Polars `Series.max` on the `Date` column: `none` on an empty frame. -/
def maxDate : List ERow → Option Int
  | [] => none
  | e :: rest =>
    match maxDate rest with
    | none => some e.date
    | some m => some (max e.date m)

/-- The `load_data` entry point: probe, assemble, concatenate, enrich, and
return the enriched table with the maximum `Date` present in it. -/
def load_data (provider : Int → Option (List PreRow)) (today : Int) (lookback : ℕ) :
    List ERow × Option Int :=
  let dfs := assembleAux (download provider) lookback (probeDates today (max_check lookback)) 0
  if dfs.isEmpty then ([], none)
  else
    let enriched := enrich dfs.flatten
    (enriched, maxDate enriched)

/-- The per-symbol value stored by `get_market_caps`: 0 on a lookup failure,
a missing capitalization, or a zero (falsy) capitalization, else the
capitalization in billions rounded to 2 decimals. -/
def capValue (info : String → Except Unit (Option ℚ)) (sym : String) : ℚ :=
  match info sym with
  | .error _ => 0
  | .ok none => 0
  | .ok (some cap) => if cap = 0 then 0 else roundDec 2 (cap / 1000000000)

/-- The `get_market_caps` loop: a dict built over the first 70 symbols only
(`symbols[:70]`), modelled as a finitely-supported map. -/
def get_market_caps (info : String → Except Unit (Option ℚ)) (symbols : List String) :
    String → Option ℚ :=
  (symbols.take 70).foldl
    (fun caps sym => Function.update caps sym (some (capValue info sym)))
    fun _ => none

/-- Concrete raw row used as witness material: a liquid symbol with a clean
short/total split. -/
def rawC3 : Raw := ⟨"AB", 5, 100000, 0, 400000⟩

/-- The enriched row `enrich [rawC3]` produces. -/
def eC3 : ERow :=
  { symbol := "AB", date := 5, shortVolume := 100000, shortExemptVolume := 0
    totalVolume := 400000, buyVolume := 100000, sellVolume := 300000
    bsRatio := some 1, dpRatio := some (.num (1 / 4)), dpIndexPct := some (.num 25)
    avg10dVolume := 400000, relativeVolume := .num 1 }

/-- Concrete raw row with a nonzero exempt component. -/
def rawC9 : Raw := ⟨"CD", 6, 150000, 50000, 1000000⟩

/-- The enriched row `enrich [rawC9]` produces. -/
def eC9 : ERow :=
  { symbol := "CD", date := 6, shortVolume := 150000, shortExemptVolume := 50000
    totalVolume := 1000000, buyVolume := 200000, sellVolume := 800000
    bsRatio := some (1333 / 1000), dpRatio := some (.num (1 / 5))
    dpIndexPct := some (.num 20), avg10dVolume := 1000000, relativeVolume := .num 1 }

/-- A malformed record with zero `TotalVolume` but positive short volume. -/
def rawC4 : Raw := ⟨"EF", 7, 1, 0, 0⟩

/-- A degenerate record that is zero in every volume column. -/
def rawC4n : Raw := ⟨"EF", 7, 0, 0, 0⟩

/-- A one-row daily payload below both noise thresholds. -/
def preLow : PreRow := ⟨"GH", 50, 0, 100⟩

/-- A provider that is unavailable on every date except ordinal 8 (a Monday),
where it serves the low-volume payload. -/
def provider0 (d : Int) : Option (List PreRow) :=
  if d = 8 then some [preLow] else none

/-- A one-row daily payload clearing the noise thresholds. -/
def preHigh : PreRow := ⟨"GH", 100000, 0, 400000⟩

/-- A provider that is unavailable on every date except ordinal 8 (a Monday),
where it serves the high-volume payload. -/
def provider1 (d : Int) : Option (List PreRow) :=
  if d = 8 then some [preHigh] else none

/-- The enriched row `load_data provider1 11 1` returns for date 8. -/
def e5 : ERow :=
  { symbol := "GH", date := 8, shortVolume := 100000, shortExemptVolume := 0
    totalVolume := 400000, buyVolume := 100000, sellVolume := 300000
    bsRatio := some 1, dpRatio := some (.num (1 / 4)), dpIndexPct := some (.num 25)
    avg10dVolume := 400000, relativeVolume := .num 1 }

/-- A capitalization lookup that always succeeds with no capitalization. -/
def infoNone (_sym : String) : Except Unit (Option ℚ) := Except.ok none

/-- Seventy copies of one symbol followed by a fresh 71st symbol. -/
def syms71 : List String := List.replicate 70 "A" ++ ["B"]

end DarkPool

namespace DarkPool

lemma rollingMeanAux_length (w : ℕ) (prev xs : List ℚ) :
    (rollingMeanAux w prev xs).length = xs.length := by
  induction xs generalizing prev with
  | nil => rfl
  | cons x rest ih => simp [rollingMeanAux, ih]

lemma rollingMeanAux_getElem (w : ℕ) (prev xs : List ℚ) (i : ℕ) (h : i < xs.length) :
    (rollingMeanAux w prev xs)[i]? =
      some (((((xs.take (i + 1)).reverse ++ prev).take w).sum) /
        ((((xs.take (i + 1)).reverse ++ prev).take w).length : ℚ)) := by
  induction xs generalizing prev i with
  | nil => simp at h
  | cons x rest ih =>
    cases i with
    | zero => simp [rollingMeanAux]
    | succ n =>
      have h' : n < rest.length := by simpa using h
      have hw : ((x :: rest).take (n + 1 + 1)).reverse ++ prev =
          (rest.take (n + 1)).reverse ++ (x :: prev) := by
        rw [List.take_succ_cons, List.reverse_cons, List.append_assoc,
          List.singleton_append]
      simp only [rollingMeanAux, List.getElem?_cons_succ]
      rw [ih (x :: prev) n h', hw]

lemma take_reverse_eq (l : List ℚ) (n : ℕ) :
    l.reverse.take n = (l.drop (l.length - n)).reverse := by
  rcases le_or_lt n l.length with h | h
  · have hlen : (l.drop (l.length - n)).reverse.length = n := by
      simp only [List.length_reverse, List.length_drop]
      omega
    have key := List.take_left (l.drop (l.length - n)).reverse (l.take (l.length - n)).reverse
    rw [hlen] at key
    conv_lhs => rw [← List.take_append_drop (l.length - n) l]
    rw [List.reverse_append]
    exact key
  · have h0 : l.length - n = 0 := by omega
    rw [h0, List.drop_zero]
    exact List.take_of_length_le (by simp; omega)

/-- Claim C1: for every symbol, `Avg10d_Volume` on the k-th (1-indexed)
chronological record equals the mean of `TotalVolume` over the most recent
`min(k, 10)` records of that symbol, current record included — proved of the
spec-modelled rolling mean, the source's own rolling line being the
`Rolling_mean` misspelling. -/
theorem avg10d_kth_window_mean (xs : List ℚ) (k : ℕ) (h1 : 1 ≤ k) (h2 : k ≤ xs.length) :
    (rollingMean 10 xs)[k - 1]? =
      some ((((xs.take k).drop (k - 10)).sum) / (((xs.take k).drop (k - 10)).length : ℚ)) ∧
    ((xs.take k).drop (k - 10)).length = min k 10 := by
  have hk1 : k - 1 < xs.length := by omega
  have e1 := rollingMeanAux_getElem 10 [] xs (k - 1) hk1
  rw [Nat.sub_add_cancel h1] at e1
  have htk : (xs.take k).length = k := by
    simp only [List.length_take]
    omega
  have hrev : (xs.take k).reverse.take 10 = ((xs.take k).drop (k - 10)).reverse := by
    rw [take_reverse_eq, htk]
  have hlen : ((xs.take k).drop (k - 10)).length = min k 10 := by
    simp only [List.length_drop, htk]
    omega
  refine ⟨?_, hlen⟩
  rw [rollingMean] at *
  rw [e1]
  simp only [List.append_nil, hrev, List.sum_reverse, List.length_reverse]

lemma splitRuns_flatten (l : List DRow) : (splitRuns l).flatten = l := by
  induction l with
  | nil => rfl
  | cons x xs ih =>
    rcases hs : splitRuns xs with _ | ⟨_ | ⟨y, g'⟩, gs⟩ <;>
        rw [hs] at ih <;>
        simp only [splitRuns, hs, List.flatten_cons, List.flatten_nil, List.nil_append,
          List.singleton_append, List.cons_append] at ih ⊢
    · simpa using ih.symm
    · simp [ih]
    · split <;> simp [ih]

lemma insertSorted_perm (r : DRow) (l : List DRow) : List.Perm (insertSorted r l) (r :: l) := by
  induction l with
  | nil => exact List.Perm.refl _
  | cons x xs ih =>
    unfold insertSorted
    split
    · exact List.Perm.refl _
    · exact (ih.cons x).trans (List.Perm.swap r x xs)

lemma sortRows_perm (l : List DRow) : List.Perm (sortRows l) l := by
  induction l with
  | nil => exact List.Perm.refl _
  | cons x xs ih => exact (insertSorted_perm x (sortRows xs)).trans (ih.cons x)

lemma toDRow_mem_zipWith {e : ERow} :
    ∀ (g : List DRow) (ms : List ℚ),
      e ∈ List.zipWith
        (fun d m =>
          ({ toDRow := d, avg10dVolume := m,
             relativeVolume := fround 2 (fdiv (d.totalVolume : ℚ) m) } : ERow)) g ms →
      e.toDRow ∈ g
  | [], _, h => by simp at h
  | _ :: _, [], h => by simp at h
  | d :: g', m :: ms', h => by
    simp only [List.zipWith_cons_cons, List.mem_cons] at h
    rcases h with h | h
    · rw [h]
      exact List.mem_cons_self d g'
    · exact List.mem_cons_of_mem d (toDRow_mem_zipWith g' ms' h)

lemma toDRow_mem_of_mem_addRolling {e : ERow} {ds : List DRow} (h : e ∈ addRolling ds) :
    e.toDRow ∈ ds := by
  unfold addRolling at h
  rw [List.mem_flatten] at h
  obtain ⟨l, hl, hel⟩ := h
  rw [List.mem_map] at hl
  obtain ⟨g, hg, rfl⟩ := hl
  have h1 : e.toDRow ∈ g := toDRow_mem_zipWith g _ (by simpa [withGroup] using hel)
  have h2 : e.toDRow ∈ (splitRuns (sortRows ds)).flatten := List.mem_flatten.2 ⟨g, hg, h1⟩
  rw [splitRuns_flatten] at h2
  exact ((sortRows_perm ds).mem_iff).1 h2

lemma mem_enrich_exists {rows : List Raw} {e : ERow} (h : e ∈ enrich rows) :
    ∃ r ∈ rows, e.toDRow = deriveRow r := by
  have h1 : e ∈ addRolling (rows.map deriveRow) := (List.mem_filter.1 h).1
  have h2 := toDRow_mem_of_mem_addRolling h1
  rw [List.mem_map] at h2
  obtain ⟨r, hr, he⟩ := h2
  exact ⟨r, hr, he.symm⟩

/-- Claim C2: a record survives the noise filter iff `TotalVolume >= 200000`
or `BuyVolume >= 100000`, and the filter applies to the table that already
carries every derived column. -/
theorem noise_filter_iff (rows : List Raw) (e : ERow) :
    e ∈ enrich rows ↔
      e ∈ addRolling (rows.map deriveRow) ∧
        (200000 ≤ e.totalVolume ∨ 100000 ≤ e.buyVolume) := by
  unfold enrich
  rw [List.mem_filter]
  simp [noiseKeep]

lemma deriveRow_bsRatio (r : Raw) :
    (0 < r.shortVolume →
      (deriveRow r).bsRatio =
        some (roundDec 3 (((deriveRow r).buyVolume : ℚ) / ((deriveRow r).shortVolume : ℚ)))) ∧
    (r.shortVolume = 0 → (deriveRow r).bsRatio = none) := by
  constructor
  · intro h
    simp [deriveRow, h]
  · intro h
    simp [deriveRow, h]

/-- Claim C3: in the enriched table, `BS_Ratio` is
`round(BuyVolume / ShortVolume, 3)` whenever `ShortVolume > 0` and null when
`ShortVolume == 0`. -/
theorem bs_ratio_policy (rows : List Raw) (e : ERow) (h : e ∈ enrich rows) :
    (0 < e.shortVolume →
      e.bsRatio = some (roundDec 3 ((e.buyVolume : ℚ) / (e.shortVolume : ℚ)))) ∧
    (e.shortVolume = 0 → e.bsRatio = none) := by
  obtain ⟨r, _, hd⟩ := mem_enrich_exists h
  rw [show e.bsRatio = (deriveRow r).bsRatio from congrArg DRow.bsRatio hd,
    show e.shortVolume = (deriveRow r).shortVolume from congrArg DRow.shortVolume hd,
    show e.buyVolume = (deriveRow r).buyVolume from congrArg DRow.buyVolume hd]
  exact deriveRow_bsRatio r

lemma addRolling_single (d : DRow) :
    addRolling [d] =
      [{ toDRow := d, avg10dVolume := (d.totalVolume : ℚ),
         relativeVolume := fround 2 (fdiv (d.totalVolume : ℚ) (d.totalVolume : ℚ)) }] := by
  simp [addRolling, sortRows, insertSorted, splitRuns, withGroup, rollingMean, rollingMeanAux]

lemma enrich_single_keep (r : Raw) (e : ERow)
    (hd : deriveRow r = e.toDRow)
    (hkeep : noiseKeep e = true)
    (havg : e.avg10dVolume = (e.totalVolume : ℚ))
    (hrel : e.relativeVolume = fround 2 (fdiv (e.totalVolume : ℚ) (e.totalVolume : ℚ))) :
    enrich [r] = [e] := by
  unfold enrich
  rw [List.map_cons, List.map_nil, hd, addRolling_single]
  rw [← hrel, ← havg]
  have heta : ({ toDRow := e.toDRow, avg10dVolume := e.avg10dVolume,
                 relativeVolume := e.relativeVolume } : ERow) = e := rfl
  rw [heta]
  simp [hkeep]

lemma enrich_rawC3 : enrich [rawC3] = [eC3] := by
  refine enrich_single_keep rawC3 eC3 ?_ ?_ ?_ ?_
  · simp only [deriveRow, rawC3, eC3, DRow.mk.injEq]
    norm_num [fdiv, fround, fscale100, roundDec, round_eq]
  · norm_num [noiseKeep, eC3]
  · norm_num [eC3]
  · norm_num [eC3, fdiv, fround, roundDec, round_eq]

lemma enrich_rawC9 : enrich [rawC9] = [eC9] := by
  refine enrich_single_keep rawC9 eC9 ?_ ?_ ?_ ?_
  · simp only [deriveRow, rawC9, eC9, DRow.mk.injEq]
    norm_num [fdiv, fround, fscale100, roundDec, round_eq]
  · norm_num [noiseKeep, eC9]
  · norm_num [eC9]
  · norm_num [eC9, fdiv, fround, roundDec, round_eq]

/-- Witness for C3: a concrete enriched record with positive short volume has
the rounded buy/short ratio. -/
theorem bs_ratio_policy_witness :
    eC3 ∈ enrich [rawC3] ∧ 0 < eC3.shortVolume ∧
      eC3.bsRatio = some (roundDec 3 ((eC3.buyVolume : ℚ) / (eC3.shortVolume : ℚ))) :=
  ⟨by rw [enrich_rawC3]; exact List.mem_singleton_self eC3, by norm_num [eC3],
    (bs_ratio_policy [rawC3] eC3
        (by rw [enrich_rawC3]; exact List.mem_singleton_self eC3)).1
      (by norm_num [eC3])⟩

/-- Claim C9: every enriched record splits volume exactly:
`BuyVolume = ShortVolume + ShortExemptVolume`,
`SellVolume = TotalVolume - BuyVolume`, and their sum is `TotalVolume`. -/
theorem volume_split_exact (rows : List Raw) (e : ERow) (h : e ∈ enrich rows) :
    e.buyVolume = e.shortVolume + e.shortExemptVolume ∧
    e.sellVolume = e.totalVolume - e.buyVolume ∧
    e.buyVolume + e.sellVolume = e.totalVolume := by
  obtain ⟨r, _, hd⟩ := mem_enrich_exists h
  rw [show e.buyVolume = (deriveRow r).buyVolume from congrArg DRow.buyVolume hd,
    show e.sellVolume = (deriveRow r).sellVolume from congrArg DRow.sellVolume hd,
    show e.shortVolume = (deriveRow r).shortVolume from congrArg DRow.shortVolume hd,
    show e.shortExemptVolume = (deriveRow r).shortExemptVolume from
      congrArg DRow.shortExemptVolume hd,
    show e.totalVolume = (deriveRow r).totalVolume from congrArg DRow.totalVolume hd]
  unfold deriveRow
  dsimp only
  omega

/-- Witness for C9 on a concrete enriched record. -/
theorem volume_split_exact_witness :
    eC9 ∈ enrich [rawC9] ∧ eC9.buyVolume + eC9.sellVolume = eC9.totalVolume :=
  ⟨by rw [enrich_rawC9]; exact List.mem_singleton_self eC9,
    (volume_split_exact [rawC9] eC9
        (by rw [enrich_rawC9]; exact List.mem_singleton_self eC9)).2.2⟩

/-- Counterexample to C4 as stated: a record with `TotalVolume == 0` and
positive `BuyVolume` gets the non-null value `+inf` as `DP_Ratio` and
`DP_Index`, not a null/undefined entry. -/
theorem dp_ratio_zero_total_not_null :
    (deriveRow rawC4).dpRatio = some FloatVal.inf ∧
    (deriveRow rawC4).dpIndexPct = some FloatVal.inf ∧
    (deriveRow rawC4).dpRatio ≠ none := by
  have h1 : (deriveRow rawC4).dpRatio = some FloatVal.inf := by
    norm_num [deriveRow, rawC4, fdiv, fround, fscale100]
  exact ⟨h1, by norm_num [deriveRow, rawC4, fdiv, fround, fscale100],
    by rw [h1]; exact Option.some_ne_none _⟩

lemma withGroup_length (g : List DRow) : (withGroup g).length = g.length := by
  simp [withGroup, rollingMean, rollingMeanAux_length]

lemma addRolling_length (ds : List DRow) : (addRolling ds).length = ds.length := by
  unfold addRolling
  rw [List.length_flatten, List.map_map]
  have hmap : (splitRuns (sortRows ds)).map (List.length ∘ withGroup) =
      (splitRuns (sortRows ds)).map List.length :=
    List.map_congr_left fun g _ => withGroup_length g
  rw [hmap, ← List.length_flatten, splitRuns_flatten]
  exact (sortRows_perm ds).length_eq

/-- Claim C4 as amended: a record with `TotalVolume == 0` yields a non-null
IEEE special as `DP_Ratio` (NaN when `BuyVolume == 0`, a signed infinity
otherwise), `DP_Index` agrees with it, no fault is raised, and the
derived-column and rolling stages drop no record. -/
theorem dp_ratio_zero_total_ieee :
    (∀ r : Raw, r.totalVolume = 0 →
      (deriveRow r).dpRatio =
        some (if r.shortVolume + r.shortExemptVolume = 0 then FloatVal.nan
          else if 0 < r.shortVolume + r.shortExemptVolume then FloatVal.inf
          else FloatVal.neginf) ∧
      (deriveRow r).dpIndexPct = (deriveRow r).dpRatio ∧
      (deriveRow r).dpRatio ≠ none) ∧
    ∀ rows : List Raw, (addRolling (rows.map deriveRow)).length = rows.length := by
  constructor
  · intro r h
    have hval : fdiv ((r.shortVolume + r.shortExemptVolume : ℤ) : ℚ) ((r.totalVolume : ℤ) : ℚ) =
        if r.shortVolume + r.shortExemptVolume = 0 then FloatVal.nan
        else if 0 < r.shortVolume + r.shortExemptVolume then FloatVal.inf
        else FloatVal.neginf := by
      rw [h]
      simp only [fdiv, Int.cast_zero, Int.cast_eq_zero, Int.cast_pos]
      simp
    have hdp : (deriveRow r).dpRatio =
        some (fround 4 (fdiv ((r.shortVolume + r.shortExemptVolume : ℤ) : ℚ)
          ((r.totalVolume : ℤ) : ℚ))) := rfl
    have hdi : (deriveRow r).dpIndexPct =
        some (fround 1 (fscale100 (fdiv ((r.shortVolume + r.shortExemptVolume : ℤ) : ℚ)
          ((r.totalVolume : ℤ) : ℚ)))) := rfl
    rcases lt_trichotomy (r.shortVolume + r.shortExemptVolume) 0 with hlt | heq | hgt
    · have h1 : r.shortVolume + r.shortExemptVolume ≠ 0 := hlt.ne
      have h2 : ¬0 < r.shortVolume + r.shortExemptVolume := by omega
      rw [hdp, hdi, hval]
      simp [h1, h2, fround, fscale100]
    · rw [hdp, hdi, hval]
      simp [heq, fround, fscale100]
    · have h1 : r.shortVolume + r.shortExemptVolume ≠ 0 := by omega
      rw [hdp, hdi, hval]
      simp [h1, hgt, fround, fscale100]
  · intro rows
    rw [addRolling_length, List.length_map]

/-- Witness for C4 as amended: the all-zero record keeps a NaN ratio and
survives the ratio and rolling stages. -/
theorem dp_ratio_zero_total_ieee_witness :
    rawC4n.totalVolume = 0 ∧
    (deriveRow rawC4n).dpRatio =
      some (if rawC4n.shortVolume + rawC4n.shortExemptVolume = 0 then FloatVal.nan
        else if 0 < rawC4n.shortVolume + rawC4n.shortExemptVolume then FloatVal.inf
        else FloatVal.neginf) ∧
    (addRolling ([rawC4n].map deriveRow)).length = [rawC4n].length :=
  ⟨rfl, (dp_ratio_zero_total_ieee.1 rawC4n rfl).1, dp_ratio_zero_total_ieee.2 [rawC4n]⟩

lemma enrich_preHigh : enrich [attachDate preHigh 8] = [e5] := by
  refine enrich_single_keep _ e5 ?_ ?_ ?_ ?_
  · simp only [deriveRow, attachDate, preHigh, e5, DRow.mk.injEq]
    norm_num [fdiv, fround, fscale100, roundDec, round_eq]
  · norm_num [noiseKeep, e5]
  · norm_num [e5]
  · norm_num [e5, fdiv, fround, roundDec, round_eq]

lemma enrich_preLow : enrich [attachDate preLow 8] = [] := by
  unfold enrich
  rw [List.map_cons, List.map_nil, addRolling_single]
  simp [noiseKeep, deriveRow, attachDate, preLow]

/-- Counterexample to C5 as stated: three unavailable probes, then a populated
day whose only record is below both noise thresholds — the load returns no
rows and no most-recent-date, not the populated day's date. -/
theorem latest_date_filtered_cex :
    download provider0 11 = none ∧ download provider0 10 = none ∧
    download provider0 9 = none ∧ download provider0 8 = some [attachDate preLow 8] ∧
    (load_data provider0 11 1).2 ≠ some 8 := by
  refine ⟨by decide, by decide, by decide, by decide, ?_⟩
  have hdfs : assembleAux (download provider0) 1 (probeDates 11 (max_check 1)) 0 =
      [[attachDate preLow 8]] := by decide
  have hload : load_data provider0 11 1 = ([], none) := by
    simp only [load_data, hdfs]
    simp [enrich_preLow, maxDate]
  rw [hload]
  simp

/-- Claim C5 as amended: the most-recent-date returned is always the maximum
`Date` over the records that survive the noise filter (so `none` when none
survive); in the three-unavailable-then-populated scenario, when the
populated day's record clears the noise filter, exactly that day is returned
and the most-recent-date is its date. -/
theorem latest_date_after_filter :
    (∀ (provider : Int → Option (List PreRow)) (today : Int) (lookback : ℕ),
      (load_data provider today lookback).2 = maxDate (load_data provider today lookback).1) ∧
    (download provider1 11 = none ∧ download provider1 10 = none ∧
      download provider1 9 = none ∧ load_data provider1 11 1 = ([e5], some 8)) := by
  constructor
  · intro provider today lookback
    unfold load_data
    dsimp only
    split <;> rfl
  · refine ⟨by decide, by decide, by decide, ?_⟩
    have hdfs : assembleAux (download provider1) 1 (probeDates 11 (max_check 1)) 0 =
        [[attachDate preHigh 8]] := by decide
    simp only [load_data, hdfs]
    simp [enrich_preHigh, maxDate]
    rfl

lemma assembleAux_of_unavailable (fetch : Int → Option (List Raw)) (lookback : ℕ)
    (dates : List Int) (found : ℕ)
    (h : ∀ d ∈ dates, fetch d = none ∨ fetch d = some []) :
    assembleAux fetch lookback dates found = [] := by
  induction dates generalizing found with
  | nil => rfl
  | cons d ds ih =>
    have hrest : ∀ x ∈ ds, fetch x = none ∨ fetch x = some [] := fun x hx =>
      h x (List.mem_cons_of_mem d hx)
    rcases h d (List.mem_cons_self d ds) with hd | hd <;>
      simp only [assembleAux, hd] <;> simp [ih _ hrest]

/-- Claim C8: when every probed date is unavailable (or serves an empty
table), the load returns the empty table and no most-recent-date. -/
theorem all_unavailable_empty (provider : Int → Option (List PreRow)) (today : Int)
    (lookback : ℕ)
    (h : ∀ d ∈ probeDates today (max_check lookback),
      provider d = none ∨ provider d = some []) :
    load_data provider today lookback = ([], none) := by
  have hfetch : ∀ d ∈ probeDates today (max_check lookback),
      download provider d = none ∨ download provider d = some [] := by
    intro d hd
    rcases h d hd with h1 | h1 <;> simp [download, h1]
  have hdfs := assembleAux_of_unavailable (download provider) lookback _ 0 hfetch
  simp only [load_data, hdfs]
  simp

/-- Witness for C8: the provider that never has data yields the empty result
without a fault. -/
theorem all_unavailable_empty_witness :
    load_data (fun _ => none) 11 1 = ([], none) :=
  all_unavailable_empty (fun _ => none) 11 1 fun _ _ => Or.inl rfl

/-- Counterexample to C6 as stated: the probe budget is the same for a
30-day-lookback request as for a latest-day request, and it does not exceed a
target of 90 populated days. -/
theorem probe_budget_constant_cex :
    max_check 30 = max_check 1 ∧ ¬90 < max_check 90 := by decide

/-- Claim C6 as amended: the probe budget is the constant 60 whatever the
lookback, and it strictly exceeds the target count only when the target is
below 60 (which covers the single latest-day request). -/
theorem probe_budget_constant (lookback : ℕ) :
    max_check lookback = 60 ∧ (lookback < 60 → lookback < max_check lookback) :=
  ⟨rfl, fun h => h⟩

/-- Witness for C6 as amended at the latest-day request. -/
theorem probe_budget_constant_witness :
    max_check 1 = 60 ∧ 1 < 60 ∧ 1 < max_check 1 :=
  ⟨(probe_budget_constant 1).1, by norm_num, (probe_budget_constant 1).2 (by norm_num)⟩

/-- Counterexample to C7 as stated: probing 7 calendar days back from a
Monday yields only 5 candidate dates, not `max_probe = 7`, because weekend
days are skipped rather than replaced. -/
theorem probe_dates_length_cex : (probeDates 8 7).length ≠ 7 := by decide

/-- Claim C7 as amended: the candidate sequence has no Saturday or Sunday, is
strictly descending, starts at or before the reference date, and its length
is the number of non-weekend days among the `max_probe` calendar days ending
at the reference date (which can be smaller than `max_probe`). -/
theorem probe_dates_spec (today : Int) (m : ℕ) :
    (∀ d ∈ probeDates today m, isWeekend d = false) ∧
    (probeDates today m).Pairwise (· > ·) ∧
    (∀ d ∈ probeDates today m, d ≤ today) ∧
    (probeDates today m).length =
      (List.range m).countP fun i : ℕ => !isWeekend (today - (i : Int)) := by
  refine ⟨?_, ?_, ?_, ?_⟩
  · intro d hd
    have h1 := (List.mem_filter.1 hd).2
    simpa using h1
  · have hbase : ((List.range m).map fun i : ℕ => today - (i : Int)).Pairwise (· > ·) := by
      refine List.Pairwise.map _ ?_ (List.pairwise_lt_range m)
      intro a b hab
      omega
    exact List.Pairwise.sublist (List.filter_sublist _) hbase
  · intro d hd
    have h1 := (List.mem_filter.1 hd).1
    rw [List.mem_map] at h1
    obtain ⟨i, _, rfl⟩ := h1
    omega
  · unfold probeDates
    rw [(List.countP_eq_length_filter _ _).symm, List.countP_map]
    rfl

/-- Witness for C7 as amended at a Monday reference with a 7-day probe. -/
theorem probe_dates_spec_witness :
    (8 : Int) ∈ probeDates 8 7 ∧ isWeekend 8 = false ∧ (8 : Int) ≤ 8 ∧
    (probeDates 8 7).length = (List.range 7).countP fun i : ℕ => !isWeekend (8 - (i : Int)) :=
  ⟨by decide, (probe_dates_spec 8 7).1 8 (by decide), (probe_dates_spec 8 7).2.2.1 8 (by decide),
    (probe_dates_spec 8 7).2.2.2⟩

lemma get_market_caps_lookup (info : String → Except Unit (Option ℚ)) (l : List String)
    (caps0 : String → Option ℚ) (sym : String) :
    (l.foldl (fun caps s => Function.update caps s (some (capValue info s))) caps0) sym =
      if sym ∈ l then some (capValue info sym) else caps0 sym := by
  induction l generalizing caps0 with
  | nil => simp
  | cons x xs ih =>
    simp only [List.foldl_cons]
    rw [ih]
    by_cases hmem : sym ∈ xs
    · simp [hmem]
    · by_cases hx : sym = x
      · subst hx
        simp [hmem, Function.update_apply]
      · simp [hmem, hx, Function.update_apply, List.mem_cons]

/-- Claim C10: the market-capitalization lookup touches only the first 70
symbols — any symbol outside them is absent from the mapping — and each
processed symbol maps to the capitalization in billions rounded to 2
decimals, or 0 on failure or a missing (falsy) capitalization, which is the
value `capValue` encodes. -/
theorem market_caps_take70 (info : String → Except Unit (Option ℚ))
    (symbols : List String) (sym : String) :
    get_market_caps info symbols = get_market_caps info (symbols.take 70) ∧
    (sym ∉ symbols.take 70 → get_market_caps info symbols sym = none) ∧
    (sym ∈ symbols.take 70 → get_market_caps info symbols sym = some (capValue info sym)) := by
  refine ⟨?_, ?_, ?_⟩
  · unfold get_market_caps
    rw [List.take_take, min_self]
  · intro h
    unfold get_market_caps
    rw [get_market_caps_lookup]
    simp [h]
  · intro h
    unfold get_market_caps
    rw [get_market_caps_lookup]
    simp [h]

/-- Witness for C10 on a 71-symbol list: the 71st symbol is absent from the
mapping, a processed symbol gets its encoded value. -/
theorem market_caps_take70_witness :
    ("B" ∉ syms71.take 70) ∧ get_market_caps infoNone syms71 "B" = none ∧
    ("A" ∈ syms71.take 70) ∧
      get_market_caps infoNone syms71 "A" = some (capValue infoNone "A") :=
  ⟨by decide, (market_caps_take70 infoNone syms71 "B").2.1 (by decide), by decide,
    (market_caps_take70 infoNone syms71 "A").2.2 (by decide)⟩

/-- Witness for C1 at the spec's own two-day scenario: the second record's
baseline is the mean of both observations. -/
theorem avg10d_kth_window_mean_witness :
    1 ≤ 2 ∧ 2 ≤ ([1000, 2000] : List ℚ).length ∧
      ((rollingMean 10 [1000, 2000])[2 - 1]? =
          some (((([1000, 2000] : List ℚ).take 2).drop (2 - 10)).sum /
            (((([1000, 2000] : List ℚ).take 2).drop (2 - 10)).length : ℚ)) ∧
        ((([1000, 2000] : List ℚ).take 2).drop (2 - 10)).length = min 2 10) :=
  ⟨by norm_num, by norm_num,
    avg10d_kth_window_mean [1000, 2000] 2 (by norm_num) (by norm_num)⟩

end DarkPool
